import Mathlib

/-!
# Verification of the `ai_shorts_maker` pipeline against its specification

Shallow embedding of the parts of the repository that the specification
talks about: the subtitle allocator and SRT timestamp helpers
(`src/ai_shorts_maker/subtitles.py`), the base-track clip construction of
`render_project` and the subtitle editing services
(`src/ai_shorts_maker/services.py`), the persistence layer
(`src/ai_shorts_maker/repository.py`), and the exception and busy-flag
handling of the web endpoints (`src/web_app/app.py`,
`src/11.coupang_wing_web.py`).

Python floats are modelled as exact rationals (`ℚ`), Python ints as `ℤ`/`ℕ`,
fallible code returns `Option`/`Except`, and the filesystem side effects of
the repository layer are modelled as explicit state passing.
-/

namespace Subtitles

/-- Embeds the `CaptionLine` dataclass of `src/ai_shorts_maker/subtitles.py`.
The source field `end` is called `stop` here because `end` is a Lean
keyword. -/
structure CaptionLine where
  start : ℚ
  stop : ℚ
  text : String
deriving DecidableEq, Repr

/-- The cursor loop of `allocate_caption_timings`
(`subtitles.py` lines 41-49): each sentence gets the window from the cursor
to `min (cursor + max (total_duration * ratio) 1.2) total_duration`, and the
cursor moves to that window's end. -/
def allocGo (total_chars : ℕ) (total_duration : ℚ) :
    List String → ℚ → List CaptionLine
  | [], _ => []
  | s :: rest, cursor =>
    let ratio : ℚ := (s.length : ℚ) / (total_chars : ℚ)
    let duration : ℚ := max (total_duration * ratio) (12/10)
    let e : ℚ := min (cursor + duration) total_duration
    ⟨cursor, e, s⟩ :: allocGo total_chars total_duration rest e

/-- Embeds `captions[-1].end = total_duration` (`subtitles.py` line 52). -/
def setLastEnd : List CaptionLine → ℚ → List CaptionLine
  | [], _ => []
  | [c], t => [⟨c.start, t, c.text⟩]
  | c :: c2 :: rest, t => c :: setLastEnd (c2 :: rest) t

/-- The `total_chars == 0` branch of `allocate_caption_timings`
(`subtitles.py` lines 37-39): caption `i` gets the window
`[i * share, (i + 1) * share]`. -/
def equalShare (share : ℚ) : ℕ → List String → List CaptionLine
  | _, [] => []
  | i, s :: rest =>
    ⟨(i : ℚ) * share, ((i : ℚ) + 1) * share, s⟩ :: equalShare share (i + 1) rest

/-- Embeds `allocate_caption_timings` (`subtitles.py` lines 31-53). -/
def allocate_caption_timings (sentences : List String) (total_duration : ℚ) :
    List CaptionLine :=
  if sentences.isEmpty then []
  else
    let total_chars := (sentences.map String.length).sum
    if total_chars = 0 then
      equalShare (total_duration / (sentences.length : ℚ)) 0 sentences
    else
      setLastEnd (allocGo total_chars total_duration sentences 0) total_duration

/-- Python's built-in `round` on an exact value: round half to even. -/
def pyRound (q : ℚ) : ℤ :=
  if q - ⌊q⌋ < 1/2 then ⌊q⌋
  else if 1/2 < q - ⌊q⌋ then ⌊q⌋ + 1
  else if ⌊q⌋ % 2 = 0 then ⌊q⌋ else ⌊q⌋ + 1

/-- Embeds `format_timestamp` (`subtitles.py` lines 93-98) down to the four
numeric fields `hours, minutes, secs, millis` of the rendered
`"hh:mm:ss,mmm"` string; the f-string layer itself is an injective
rendering of this tuple and is not re-modelled.  Python `divmod` is
floor division, hence `Int.fdiv`/`Int.fmod`. -/
def format_timestamp (seconds : ℚ) : ℤ × ℤ × ℤ × ℤ :=
  let millis := pyRound (seconds * 1000)
  let hours := millis.fdiv 3600000
  let rem1 := millis.fmod 3600000
  let minutes := rem1.fdiv 60000
  let rem2 := rem1.fmod 60000
  let secs := rem2.fdiv 1000
  let ms := rem2.fmod 1000
  (hours, minutes, secs, ms)

/-- Embeds `a, b, c = lst[-3:]` (`subtitles.py` lines 106 and 111): the last
three elements in order, failing (Python `ValueError`) when the list is
shorter than three. -/
def last3 (l : List ℤ) : Option (ℤ × ℤ × ℤ) :=
  match l.reverse with
  | c :: b :: a :: _ => some (a, b, c)
  | _ => none

/-- Embeds `_parse_timestamp` (`subtitles.py` lines 101-114) after the string
has been split: `timeParts` are the colon-separated integers of the time
part and `msPart` is the integer after the comma when the split on the
comma yields exactly two parts (`none` models a timecode with no
comma or period part, where the source sets `ms = 0`). -/
def parse_timestamp (timeParts : List ℤ) (msPart : Option ℤ) : Option ℚ :=
  let ms : ℤ := msPart.getD 0
  (last3 timeParts).map fun hms =>
    (hms.1 : ℚ) * 3600 + (hms.2.1 : ℚ) * 60 + (hms.2.2 : ℚ) + (ms : ℚ) / 1000

end Subtitles

namespace Render

/-- A timeline segment as consumed by the base-track loop of
`render_project` (`src/ai_shorts_maker/services.py`): only the `start` and
`end` fields matter for clip-list construction (`end` is called `stop`
because `end` is a Lean keyword). -/
structure Seg where
  start : ℚ
  stop : ℚ
deriving DecidableEq, Repr

/-- Clip length produced by `_segment_to_clip` (`services.py` line 413):
`duration = max(segment.end - segment.start, 0.1)`; lines 435-446 then cut,
loop or stretch the media so the returned clip lasts exactly this long. -/
def segClipDuration (s : Seg) : ℚ := max (s.stop - s.start) (1/10)

/-- The base-track loop of `render_project` (`services.py` lines 705-720):
returns the durations of the emitted clips (gap fillers included; a
`_gap_clip gap` lasts exactly `gap`, lines 645-649) together with the final
cursor.  A segment whose `seg_duration <= 0` is skipped; a gap filler is
inserted when `segment.start > cursor + 1e-3`, after which the cursor sits
exactly at `segment.start`; the cursor then advances to
`max cursor segment.end`. -/
def baseLoop : List Seg → ℚ → List ℚ × ℚ
  | [], cursor => ([], cursor)
  | seg :: rest, cursor =>
    if seg.stop - seg.start ≤ 0 then baseLoop rest cursor
    else
      let pre : List ℚ :=
        if cursor + 1/1000 < seg.start then [seg.start - cursor] else []
      let cursor1 : ℚ :=
        if cursor + 1/1000 < seg.start then seg.start else cursor
      let next := baseLoop rest (max cursor1 seg.stop)
      (pre ++ segClipDuration seg :: next.1, next.2)

/-- The gap-filled base clip list of `render_project` (`services.py` lines
654 and 698-725): segments sorted by `start` (Python `sorted` is stable, as
is insertion sort), the loop above starting from cursor `0`, and a trailing
filler when `cursor < base_duration - 1e-3`. -/
def render_base_clips (segs : List Seg) (base_duration : ℚ) : List ℚ :=
  let sorted := List.insertionSort (fun a b => a.start ≤ b.start) segs
  let result := baseLoop sorted 0
  if result.2 < base_duration - 1/1000 then
    result.1 ++ [base_duration - result.2]
  else result.1

/-- Gap precondition relative to a cursor: each segment starts exactly at
the running cursor or more than `1e-3` after it (the two cases in which the
loop of `render_project` leaves no sub-millisecond hole). -/
def GapOk : ℚ → List Seg → Prop
  | _, [] => True
  | c, s :: rest => (s.start = c ∨ c + 1/1000 < s.start) ∧ GapOk s.stop rest

instance GapOk.dec : (c : ℚ) → (l : List Seg) → Decidable (GapOk c l)
  | _, [] => .isTrue trivial
  | c, s :: rest =>
    haveI : Decidable (GapOk s.stop rest) := GapOk.dec s.stop rest
    inferInstanceAs (Decidable (_ ∧ _))

/-- The stop time of the last segment, or the given cursor for an empty
list: this is where the base-track loop's cursor ends up. -/
def lastStop (c : ℚ) : List Seg → ℚ
  | [] => c
  | s :: rest => lastStop s.stop rest

end Render

namespace Repository

/-- Abstraction of a parsed metadata JSON blob exactly as `save_project`
(`src/ai_shorts_maker/repository.py`) inspects it: its Python truthiness
(`if old_data:`), its `"version"` entry (`old_data.get("version")`, `none`
when the key is absent), and a payload tag standing for the rest of the
document so that distinct blobs stay distinct. -/
structure JsonBlob where
  truthy : Bool
  version : Option ℤ
  payload : ℕ
deriving DecidableEq, Repr

/-- On-disk state of one project: `mainFile` is the metadata file (`none`
when absent, `some none` when present but not valid JSON, `some (some b)`
when it parses to blob `b`) and `backups` is the `_versions` directory
keyed by version number. -/
structure FsState where
  mainFile : Option (Option JsonBlob)
  backups : List (ℤ × JsonBlob)
deriving DecidableEq, Repr

/-- Embeds `prev_version = old_data.get("version") or max(metadata.version
- 1, 1)` (`repository.py` line 126): Python `or` keeps the left operand
when it is truthy, that is, present and nonzero. -/
def prevVersion (old : JsonBlob) (metaVersion : ℤ) : ℤ :=
  match old.version with
  | some v => if v ≠ 0 then v else max (metaVersion - 1) 1
  | none => max (metaVersion - 1) 1

/-- Embeds `save_project` (`repository.py` lines 113-149): when the metadata
file exists, parses as JSON and is truthy, and no backup file for
`prev_version` exists yet, the old blob is written to
`_versions/vN.metadata.json`; the metadata file is then overwritten with
the new blob unconditionally. -/
def save_project (metaVersion : ℤ) (newBlob : JsonBlob) (fs : FsState) :
    FsState :=
  let backups :=
    match fs.mainFile with
    | some (some old) =>
      if old.truthy then
        let prev := prevVersion old metaVersion
        if (fs.backups.lookup prev).isNone then (prev, old) :: fs.backups
        else fs.backups
      else fs.backups
    | _ => fs.backups
  { mainFile := some (some newBlob), backups := backups }

end Repository

namespace Services

/-- Embeds the `SubtitleLine` model (`src/ai_shorts_maker/models.py`); the
timestamps `created_at`/`updated_at` are modelled as abstract ticks and the
source field `end` is called `stop` (Lean keyword). -/
structure SubtitleLine where
  id : String
  start : ℚ
  stop : ℚ
  text : String
deriving DecidableEq, Repr

/-- The slice of `ProjectMetadata` (`models.py`) that the subtitle editing
services read or write: captions, timeline, version counter and the
`updated_at` tick. -/
structure ProjectMetadata where
  captions : List SubtitleLine
  timeline : List Render.Seg
  version : ℤ
  updated_at : ℕ
deriving DecidableEq, Repr

/-- Embeds the `SubtitleUpdate` payload (`models.py`): optional new start,
end and text. -/
structure SubtitleUpdate where
  start : Option ℚ
  stop : Option ℚ
  text : Option String
deriving DecidableEq, Repr

/-- The exceptions the service layer raises. -/
inductive SvcError
  | fileNotFound (msg : String)
  | keyError (msg : String)
  | valueError (msg : String)
deriving DecidableEq, Repr

/-- Embeds `_touch` (`services.py` lines 105-107): bump `version`, refresh
`updated_at`. -/
def touch (m : ProjectMetadata) (now : ℕ) : ProjectMetadata :=
  { m with version := m.version + 1, updated_at := now }

/-- Embeds `_round_time` (`services.py` lines 110-116) on an exact rational:
Python `round(value, 1)` rounds half to even at one decimal digit.  The
`TypeError`/`ValueError` fallback cannot fire on a numeric input. -/
def round_time (q : ℚ) : ℚ := (Subtitles.pyRound (q * 10) : ℚ) / 10

/-- Replaces the first caption carrying the given id, as mutating the
object found by `next((sub for sub in metadata.captions if sub.id ==
subtitle_id), None)` does (`services.py` line 141). -/
def updateFirst (captions : List SubtitleLine) (sid : String)
    (f : SubtitleLine → SubtitleLine) : List SubtitleLine :=
  match captions with
  | [] => []
  | c :: rest =>
    if c.id = sid then f c :: rest else c :: updateFirst rest sid f

/-- The field updates of `update_subtitle` (`services.py` lines 145-157):
each present payload field overwrites the target, times going through
`_round_time`. -/
def applyUpdate (p : SubtitleUpdate) (target : SubtitleLine) : SubtitleLine :=
  let t1 := match p.start with
    | none => target
    | some v => { target with start := round_time v }
  let t2 := match p.stop with
    | none => t1
    | some v => { t1 with stop := round_time v }
  match p.text with
  | none => t2
  | some s => { t2 with text := s }

/-- Embeds `update_subtitle` (`services.py` lines 139-160) together with its
effect on the persisted metadata file: the first component is the returned
metadata or the raised exception, the second the on-disk state after the
call (`save_project` runs only after the id lookup succeeds, so an
exception leaves the disk untouched). -/
def update_subtitle (disk : Option ProjectMetadata) (sid : String)
    (p : SubtitleUpdate) (now : ℕ) :
    Except SvcError ProjectMetadata × Option ProjectMetadata :=
  match disk with
  | none => (.error (.fileNotFound "Metadata file not found"), none)
  | some metadata =>
    match metadata.captions.find? (fun sub => sub.id = sid) with
    | none =>
      (.error (.keyError ("Subtitle " ++ sid ++ " not found")), some metadata)
    | some _ =>
      let captions := List.insertionSort (fun a b => a.start ≤ b.start)
        (updateFirst metadata.captions sid (applyUpdate p))
      let m := touch { metadata with captions := captions } now
      (.ok m, some m)

/-- Embeds `delete_subtitle_line` (`services.py` lines 163-170) with its
effect on the persisted metadata file, as for `update_subtitle`: the
`KeyError` fires when filtering by id removed nothing. -/
def delete_subtitle_line (disk : Option ProjectMetadata) (sid : String)
    (now : ℕ) :
    Except SvcError ProjectMetadata × Option ProjectMetadata :=
  match disk with
  | none => (.error (.fileNotFound "Metadata file not found"), none)
  | some metadata =>
    let remaining := metadata.captions.filter (fun sub => sub.id ≠ sid)
    if remaining.length = metadata.captions.length then
      (.error (.keyError ("Subtitle " ++ sid ++ " not found")), some metadata)
    else
      let m := touch { metadata with captions := remaining } now
      (.ok m, some m)

end Services

namespace WebApp

/-- The kinds of exception the `except` clauses of `src/web_app/app.py`
distinguish. -/
inductive ExcKind
  | fileNotFound
  | keyError
  | valueError
  | runtimeError
  | other
deriving DecidableEq, Repr

/-- An endpoint's reaction to an exception raised by the service call: an
`HTTPException` with the given status code and `detail=str(exc)`, or
re-raising out of the endpoint (in which case the framework's default
handler produces a generic 500 whose body is not the exception string). -/
inductive ExcResponse
  | httpDetailStr (statusCode : ℕ)
  | propagated
deriving DecidableEq, Repr

/-- The `except` chain of `api_update_subtitle` (`app.py` lines 218-227):
`FileNotFoundError` and `KeyError` give 404, `ValueError` gives 400, all
with `detail=str(exc)`; anything else is not caught. -/
def api_update_subtitle_exc : ExcKind → ExcResponse
  | .fileNotFound => .httpDetailStr 404
  | .keyError => .httpDetailStr 404
  | .valueError => .httpDetailStr 400
  | _ => .propagated

/-- The `except` chain of `api_render_project` (`app.py` lines 277-285):
`FileNotFoundError` gives 404, `RuntimeError` gives 400, both with
`detail=str(exc)`; anything else, `ValueError` and `KeyError` included, is
not caught. -/
def api_render_project_exc : ExcKind → ExcResponse
  | .fileNotFound => .httpDetailStr 404
  | .runtimeError => .httpDetailStr 400
  | _ => .propagated

/-- Decision an endpoint takes on an incoming job request. -/
inductive JobDecision
  | started
  | rejected
deriving DecidableEq, Repr

/-- Embeds `api_search` of `src/11.coupang_wing_web.py` (lines 467-485), a
scraping endpoint guarded by a busy flag: with `is_scraping` set it answers
400 without starting anything; with Playwright missing it answers 500
without starting anything; otherwise it launches the scraper thread. -/
def api_search (is_scraping : Bool) (playwright_available : Bool) :
    JobDecision :=
  if is_scraping then .rejected
  else if playwright_available = false then .rejected
  else .started

/-- Embeds `start_search` of
`src/2_app_web_coupang_rank_chrome_secretmode_server3ok.py` (lines
432-446), another scraping endpoint guarded by a busy flag: with
`search_active` unset it sets the flag and launches the search thread;
otherwise it answers an error JSON without starting anything.  Result:
the decision and the value of `search_active` after the call. -/
def start_search (search_active : Bool) : JobDecision × Bool :=
  if search_active = false then (.started, true)
  else (.rejected, search_active)

/-- Embeds the admission behaviour of `api_render_project`
(`src/web_app/app.py` lines 277-285): the endpoint body consults no busy
flag or any other global state before calling `render_project`, so the
request is admitted whatever the in-flight status of other render jobs;
the parameter records that status and is unused, exactly as in the
source. -/
def api_render_project_admission (renderJobInFlight : Bool) : JobDecision :=
  .started

end WebApp

namespace Subtitles

theorem allocGo_texts (tc : ℕ) (t : ℚ) :
    ∀ (ss : List String) (c : ℚ),
      (allocGo tc t ss c).map CaptionLine.text = ss
  | [], _ => rfl
  | s :: rest, c => by
    simp only [allocGo, List.map_cons, List.cons.injEq]
    exact ⟨trivial, allocGo_texts tc t rest _⟩

theorem setLastEnd_texts :
    ∀ (l : List CaptionLine) (t : ℚ),
      (setLastEnd l t).map CaptionLine.text = l.map CaptionLine.text
  | [], _ => rfl
  | [_], _ => rfl
  | c :: c2 :: rest, t => by
    simp only [setLastEnd, List.map_cons, List.cons.injEq]
    exact ⟨trivial, setLastEnd_texts (c2 :: rest) t⟩

theorem equalShare_texts (sh : ℚ) :
    ∀ (ss : List String) (i : ℕ),
      (equalShare sh i ss).map CaptionLine.text = ss
  | [], _ => rfl
  | s :: rest, i => by
    simp only [equalShare, List.map_cons, List.cons.injEq]
    exact ⟨trivial, equalShare_texts sh rest (i + 1)⟩

theorem setLastEnd_concat :
    ∀ (l : List CaptionLine) (t : ℚ), l ≠ [] →
      ∃ (init : List CaptionLine) (c : CaptionLine),
        setLastEnd l t = init ++ [c] ∧ c.stop = t
  | [], _, h => absurd rfl h
  | [c], t, _ => ⟨[], ⟨c.start, t, c.text⟩, rfl, rfl⟩
  | c :: c2 :: rest, t, _ => by
    obtain ⟨init, d, heq, hstop⟩ :=
      setLastEnd_concat (c2 :: rest) t (by simp)
    exact ⟨c :: init, d, by simp [setLastEnd, heq], hstop⟩

theorem equalShare_getLast_stop (sh : ℚ) :
    ∀ (ss : List String) (i : ℕ), ss ≠ [] →
      ∃ c, (equalShare sh i ss).getLast? = some c ∧
        c.stop = ((i + ss.length : ℕ) : ℚ) * sh
  | [], _, h => absurd rfl h
  | [s], i, _ => by
    refine ⟨⟨(i : ℚ) * sh, ((i : ℚ) + 1) * sh, s⟩, by simp [equalShare], ?_⟩
    simp only [List.length_singleton]
    push_cast
    ring
  | s :: s2 :: rest, i, _ => by
    obtain ⟨c, hc, hstop⟩ :=
      equalShare_getLast_stop sh (s2 :: rest) (i + 1) (by simp)
    refine ⟨c, ?_, ?_⟩
    · have h1 : equalShare sh i (s :: s2 :: rest) =
          ⟨(i : ℚ) * sh, ((i : ℚ) + 1) * sh, s⟩ ::
            equalShare sh (i + 1) (s2 :: rest) := rfl
      have h2 : equalShare sh (i + 1) (s2 :: rest) =
          ⟨((i + 1 : ℕ) : ℚ) * sh, (((i + 1 : ℕ)) + 1 : ℚ) * sh, s2⟩ ::
            equalShare sh (i + 2) rest := rfl
      rw [h1, h2]
      rw [h2] at hc
      rw [List.getLast?_cons_cons]
      exact hc
    · rw [hstop]
      have : ((i + 1) + (s2 :: rest).length : ℕ) =
          (i + (s :: s2 :: rest).length : ℕ) := by simp; omega
      rw [this]

theorem allocGo_ne_nil (tc : ℕ) (t : ℚ) (ss : List String) (c : ℚ)
    (h : ss ≠ []) : allocGo tc t ss c ≠ [] := by
  intro hnil
  apply h
  have := allocGo_texts tc t ss c
  rw [hnil] at this
  simpa using this.symm

theorem mem_setLastEnd :
    ∀ (l : List CaptionLine) (t : ℚ) (c : CaptionLine),
      c ∈ setLastEnd l t →
        c ∈ l ∨ ∃ d ∈ l, c.start = d.start ∧ c.stop = t
  | [], _, c, h => absurd h (List.not_mem_nil c)
  | [d], t, c, h => by
    rw [show setLastEnd [d] t = [⟨d.start, t, d.text⟩] from rfl] at h
    rcases List.mem_singleton.mp h with rfl
    exact Or.inr ⟨d, List.mem_singleton_self d, rfl, rfl⟩
  | d :: d2 :: rest, t, c, h => by
    rw [show setLastEnd (d :: d2 :: rest) t =
        d :: setLastEnd (d2 :: rest) t from rfl] at h
    rcases List.mem_cons.mp h with rfl | h
    · exact Or.inl (List.mem_cons_self _ _)
    · rcases mem_setLastEnd (d2 :: rest) t c h with h' | ⟨e, he, h1, h2⟩
      · exact Or.inl (List.mem_cons_of_mem _ h')
      · exact Or.inr ⟨e, List.mem_cons_of_mem _ he, h1, h2⟩

theorem allocGo_duration (tc : ℕ) (t : ℚ) :
    ∀ (ss : List String) (cursor : ℚ), ∀ c ∈ allocGo tc t ss cursor,
      c.stop < t → 12/10 ≤ c.stop - c.start
  | [], _, c, hc => absurd hc (List.not_mem_nil c)
  | s :: rest, cursor, c, hc => by
    simp only [allocGo, List.mem_cons] at hc
    rcases hc with rfl | hc
    · intro hlt
      simp only at hlt ⊢
      set dur : ℚ := max (t * ((s.length : ℚ) / (tc : ℚ))) (12/10) with hdur
      by_cases hat : cursor + dur ≤ t
      · rw [min_eq_left hat] at hlt ⊢
        have : (12:ℚ)/10 ≤ dur := le_max_right _ _
        linarith
      · rw [min_eq_right (le_of_not_le hat)] at hlt
        exact absurd hlt (lt_irrefl t)
    · exact allocGo_duration tc t rest _ c hc

theorem allocGo_bounds (tc : ℕ) (t : ℚ) :
    ∀ (ss : List String) (cursor : ℚ), cursor ≤ t →
      ∀ c ∈ allocGo tc t ss cursor,
        c.start ≤ c.stop ∧ c.start ≤ t ∧ c.stop ≤ t
  | [], _, _, c, hc => absurd hc (List.not_mem_nil c)
  | s :: rest, cursor, hct, c, hc => by
    simp only [allocGo, List.mem_cons] at hc
    have hdur : (0:ℚ) ≤ max (t * ((s.length : ℚ) / (tc : ℚ))) (12/10) :=
      le_trans (by norm_num) (le_max_right _ _)
    rcases hc with rfl | hc
    · refine ⟨le_min (by linarith) hct, hct, min_le_right _ _⟩
    · exact allocGo_bounds tc t rest _ (min_le_right _ _) c hc

theorem allocGo_chain (tc : ℕ) (t : ℚ) (ss : List String) :
    ∀ (cursor : ℚ),
      List.Chain' (fun a b => b.start = a.stop) (allocGo tc t ss cursor) := by
  induction ss with
  | nil => intro c; simp [allocGo]
  | cons s rest ih =>
    intro cursor
    cases rest with
    | nil => simp [allocGo]
    | cons s2 rest2 =>
      rw [show allocGo tc t (s :: s2 :: rest2) cursor =
        ⟨cursor,
          min (cursor + max (t * ((s.length : ℚ) / (tc : ℚ))) (12/10)) t, s⟩ ::
          allocGo tc t (s2 :: rest2)
            (min (cursor + max (t * ((s.length : ℚ) / (tc : ℚ))) (12/10)) t)
        from rfl]
      rw [show allocGo tc t (s2 :: rest2)
          (min (cursor + max (t * ((s.length : ℚ) / (tc : ℚ))) (12/10)) t) =
        ⟨min (cursor + max (t * ((s.length : ℚ) / (tc : ℚ))) (12/10)) t,
          min ((min (cursor + max (t * ((s.length : ℚ) / (tc : ℚ))) (12/10)) t)
            + max (t * ((s2.length : ℚ) / (tc : ℚ))) (12/10)) t, s2⟩ ::
          allocGo tc t rest2
            (min ((min (cursor + max (t * ((s.length : ℚ) / (tc : ℚ))) (12/10)) t)
              + max (t * ((s2.length : ℚ) / (tc : ℚ))) (12/10)) t)
        from rfl]
      refine List.chain'_cons.mpr ⟨rfl, ?_⟩
      have := ih (min (cursor + max (t * ((s.length : ℚ) / (tc : ℚ))) (12/10)) t)
      rw [show allocGo tc t (s2 :: rest2)
          (min (cursor + max (t * ((s.length : ℚ) / (tc : ℚ))) (12/10)) t) =
        ⟨min (cursor + max (t * ((s.length : ℚ) / (tc : ℚ))) (12/10)) t,
          min ((min (cursor + max (t * ((s.length : ℚ) / (tc : ℚ))) (12/10)) t)
            + max (t * ((s2.length : ℚ) / (tc : ℚ))) (12/10)) t, s2⟩ ::
          allocGo tc t rest2
            (min ((min (cursor + max (t * ((s.length : ℚ) / (tc : ℚ))) (12/10)) t)
              + max (t * ((s2.length : ℚ) / (tc : ℚ))) (12/10)) t)
        from rfl] at this
      exact this

theorem setLastEnd_chain :
    ∀ (l : List CaptionLine) (t : ℚ),
      List.Chain' (fun a b => b.start = a.stop) l →
      List.Chain' (fun a b => b.start = a.stop) (setLastEnd l t)
  | [], _, _ => by simp [setLastEnd]
  | [c], t, _ => by simp [setLastEnd]
  | c :: c2 :: rest, t, h => by
    obtain ⟨hR, h2⟩ := List.chain'_cons.mp h
    have ih := setLastEnd_chain (c2 :: rest) t h2
    rw [show setLastEnd (c :: c2 :: rest) t =
        c :: setLastEnd (c2 :: rest) t from rfl]
    cases rest with
    | nil =>
      rw [show setLastEnd [c2] t = [⟨c2.start, t, c2.text⟩] from rfl]
      exact List.chain'_cons.mpr ⟨hR, List.chain'_singleton _⟩
    | cons c3 rest2 =>
      rw [show setLastEnd (c2 :: c3 :: rest2) t =
          c2 :: setLastEnd (c3 :: rest2) t from rfl] at ih ⊢
      exact List.chain'_cons.mpr ⟨hR, ih⟩

theorem equalShare_lt (sh : ℚ) (hsh : 0 < sh) :
    ∀ (ss : List String) (i : ℕ), ∀ c ∈ equalShare sh i ss,
      c.start < c.stop
  | [], _, c, hc => absurd hc (List.not_mem_nil c)
  | s :: rest, i, c, hc => by
    simp only [equalShare, List.mem_cons] at hc
    rcases hc with rfl | hc
    · simp only
      nlinarith
    · exact equalShare_lt sh hsh rest (i + 1) c hc

theorem equalShare_chain (sh : ℚ) (ss : List String) :
    ∀ (i : ℕ),
      List.Chain' (fun a b => b.start = a.stop) (equalShare sh i ss) := by
  induction ss with
  | nil => intro i; simp [equalShare]
  | cons s rest ih =>
    intro i
    cases rest with
    | nil => simp [equalShare]
    | cons s2 rest2 =>
      rw [show equalShare sh i (s :: s2 :: rest2) =
        ⟨(i : ℚ) * sh, ((i : ℚ) + 1) * sh, s⟩ ::
          equalShare sh (i + 1) (s2 :: rest2) from rfl]
      rw [show equalShare sh (i + 1) (s2 :: rest2) =
        ⟨((i + 1 : ℕ) : ℚ) * sh, (((i + 1 : ℕ) : ℚ) + 1) * sh, s2⟩ ::
          equalShare sh (i + 2) rest2 from rfl]
      refine List.chain'_cons.mpr ⟨by push_cast; ring, ?_⟩
      have := ih (i + 1)
      rw [show equalShare sh (i + 1) (s2 :: rest2) =
        ⟨((i + 1 : ℕ) : ℚ) * sh, (((i + 1 : ℕ) : ℚ) + 1) * sh, s2⟩ ::
          equalShare sh (i + 2) rest2 from rfl] at this
      exact this

end Subtitles

namespace Subtitles

theorem allocate_eq_go (s : List String) (t : ℚ) (hs : s ≠ [])
    (h0 : (s.map String.length).sum ≠ 0) :
    allocate_caption_timings s t =
      setLastEnd (allocGo ((s.map String.length).sum) t s 0) t := by
  simp only [allocate_caption_timings]
  rw [if_neg (by simpa using hs), if_neg h0]

theorem allocate_eq_share (s : List String) (t : ℚ) (hs : s ≠ [])
    (h0 : (s.map String.length).sum = 0) :
    allocate_caption_timings s t = equalShare (t / (s.length : ℚ)) 0 s := by
  simp only [allocate_caption_timings]
  rw [if_neg (by simpa using hs), if_pos h0]

/-- C3: for every non-empty sentence list and positive `total_duration`,
`allocate_caption_timings` returns exactly one caption per sentence, each
carrying the corresponding sentence text in order. -/
theorem allocate_caption_count_and_texts (s : List String) (t : ℚ)
    (hs : s ≠ []) (ht : 0 < t) :
    (allocate_caption_timings s t).length = s.length ∧
      (allocate_caption_timings s t).map CaptionLine.text = s := by
  have htext : (allocate_caption_timings s t).map CaptionLine.text = s := by
    by_cases h0 : (s.map String.length).sum = 0
    · rw [allocate_eq_share s t hs h0]
      exact equalShare_texts _ s 0
    · rw [allocate_eq_go s t hs h0, setLastEnd_texts, allocGo_texts]
  refine ⟨?_, htext⟩
  have := congrArg List.length htext
  simpa using this

/-- Witness for C3 at sentences `["hi", "there"]`, duration 4. -/
theorem allocate_caption_count_and_texts_witness :
    (["hi", "there"] : List String) ≠ [] ∧ (0:ℚ) < 4 ∧
      ((allocate_caption_timings ["hi", "there"] 4).length =
          (["hi", "there"] : List String).length ∧
        (allocate_caption_timings ["hi", "there"] 4).map CaptionLine.text =
          ["hi", "there"]) :=
  ⟨by simp, by norm_num,
    allocate_caption_count_and_texts ["hi", "there"] 4 (by simp) (by norm_num)⟩

/-- C2: for every non-empty sentence list and positive `total_duration`, the
last caption returned by `allocate_caption_timings` ends exactly at
`total_duration`. -/
theorem allocate_caption_last_end_eq_total (s : List String) (t : ℚ)
    (hs : s ≠ []) (ht : 0 < t) :
    ∃ c, (allocate_caption_timings s t).getLast? = some c ∧ c.stop = t := by
  by_cases h0 : (s.map String.length).sum = 0
  · rw [allocate_eq_share s t hs h0]
    obtain ⟨c, hc, hstop⟩ := equalShare_getLast_stop (t / (s.length : ℚ)) s 0 hs
    refine ⟨c, hc, ?_⟩
    rw [hstop]
    have hn : (s.length : ℚ) ≠ 0 :=
      Nat.cast_ne_zero.mpr (Nat.pos_iff_ne_zero.mp (List.length_pos.mpr hs))
    push_cast
    field_simp
  · rw [allocate_eq_go s t hs h0]
    obtain ⟨init, c, heq, hstop⟩ :=
      setLastEnd_concat (allocGo ((s.map String.length).sum) t s 0) t
        (allocGo_ne_nil _ _ _ _ hs)
    exact ⟨c, by rw [heq]; exact List.getLast?_concat _, hstop⟩

/-- Witness for C2 at sentences `["ab"]`, duration 2. -/
theorem allocate_caption_last_end_eq_total_witness :
    (["ab"] : List String) ≠ [] ∧ (0:ℚ) < 2 ∧
      ∃ c, (allocate_caption_timings ["ab"] 2).getLast? = some c ∧
        c.stop = 2 :=
  ⟨by simp, by norm_num,
    allocate_caption_last_end_eq_total ["ab"] 2 (by simp) (by norm_num)⟩

/-- C1 (counterexample): at sentences `["a", "b", "c"]` and
`total_duration = 1` the middle caption — not the final one — has duration
`0 < 1.2`, so the 1.2-second floor with an exception only for the final
caption's forced alignment is false: any caption whose window hits
`total_duration` can be arbitrarily short. -/
theorem allocate_caption_floor_counterexample :
    ¬ ∀ c ∈ (allocate_caption_timings ["a", "b", "c"] 1).dropLast,
        (12/10 : ℚ) ≤ c.stop - c.start := by
  intro h
  have heval : allocate_caption_timings ["a", "b", "c"] 1 =
      [⟨0, 1, "a"⟩, ⟨1, 1, "b"⟩, ⟨1, 1, "c"⟩] := by
    norm_num [allocate_caption_timings, allocGo, setLastEnd, String.length]
  have hb := h ⟨1, 1, "b"⟩ (by rw [heval]; simp [List.dropLast])
  norm_num at hb

/-- C1 (amended): for a sentence list with at least one non-empty sentence
and positive `total_duration`, every caption whose end lies strictly below
`total_duration` lasts at least 1.2 seconds; only captions whose end was
clamped to `total_duration` may be shorter. -/
theorem allocate_caption_floor_unless_clamped (s : List String) (t : ℚ)
    (hs : s ≠ []) (hx : ∃ x ∈ s, x.length ≠ 0) (ht : 0 < t) :
    ∀ c ∈ allocate_caption_timings s t, c.stop < t →
      12/10 ≤ c.stop - c.start := by
  have h0 : (s.map String.length).sum ≠ 0 := by
    obtain ⟨x, hxs, hxl⟩ := hx
    intro hsum
    exact hxl (List.sum_eq_zero_iff.mp hsum _ (List.mem_map_of_mem _ hxs))
  intro c hc hlt
  rw [allocate_eq_go s t hs h0] at hc
  rcases mem_setLastEnd _ _ _ hc with h | ⟨d, hd, h1, h2⟩
  · exact allocGo_duration _ _ _ _ c h hlt
  · exact absurd h2 (ne_of_lt hlt)

/-- Witness for amended C1 at sentences `["a", "b"]`, duration 10. -/
theorem allocate_caption_floor_unless_clamped_witness :
    (["a", "b"] : List String) ≠ [] ∧
      (∃ x ∈ (["a", "b"] : List String), x.length ≠ 0) ∧ (0:ℚ) < 10 ∧
      ∀ c ∈ allocate_caption_timings ["a", "b"] 10, c.stop < 10 →
        12/10 ≤ c.stop - c.start :=
  ⟨by simp, ⟨"a", by simp, by decide⟩, by norm_num,
    allocate_caption_floor_unless_clamped ["a", "b"] 10 (by simp)
      ⟨"a", by simp, by decide⟩ (by norm_num)⟩

/-- C4 (counterexample): at sentences `["a", "b"]` and `total_duration = 1`
the second caption has `start = end = 1`, so the invariant `start < end`
fails as stated. -/
theorem allocate_caption_strict_order_counterexample :
    ¬ ∀ c ∈ allocate_caption_timings ["a", "b"] 1, c.start < c.stop := by
  intro h
  have heval : allocate_caption_timings ["a", "b"] 1 =
      [⟨0, 1, "a"⟩, ⟨1, 1, "b"⟩] := by
    norm_num [allocate_caption_timings, allocGo, setLastEnd, String.length]
  have hb := h ⟨1, 1, "b"⟩ (by rw [heval]; simp)
  exact lt_irrefl (1:ℚ) hb

/-- C4 (amended): for every non-empty sentence list and positive
`total_duration` the caption sequence satisfies `start ≤ end` (strictly
whenever the caption's end was not clamped to `total_duration`), and the
sequence is contiguous: each caption's start equals the previous caption's
end. -/
theorem allocate_caption_contiguous_monotone (s : List String) (t : ℚ)
    (hs : s ≠ []) (ht : 0 < t) :
    (∀ c ∈ allocate_caption_timings s t, c.start ≤ c.stop) ∧
      (∀ c ∈ allocate_caption_timings s t, c.stop < t → c.start < c.stop) ∧
      List.Chain' (fun a b => b.start = a.stop)
        (allocate_caption_timings s t) := by
  by_cases h0 : (s.map String.length).sum = 0
  · rw [allocate_eq_share s t hs h0]
    have hn : 0 < (s.length : ℚ) := by
      exact_mod_cast List.length_pos.mpr hs
    have hsh : 0 < t / (s.length : ℚ) := div_pos ht hn
    exact ⟨fun c hc => le_of_lt (equalShare_lt _ hsh s 0 c hc),
      fun c hc _ => equalShare_lt _ hsh s 0 c hc,
      equalShare_chain _ s 0⟩
  · rw [allocate_eq_go s t hs h0]
    refine ⟨?_, ?_, setLastEnd_chain _ t (allocGo_chain _ t s 0)⟩
    · intro c hc
      rcases mem_setLastEnd _ _ _ hc with h | ⟨d, hd, h1, h2⟩
      · exact (allocGo_bounds _ t s 0 (le_of_lt ht) c h).1
      · rw [h1, h2]
        exact (allocGo_bounds _ t s 0 (le_of_lt ht) d hd).2.1
    · intro c hc hlt
      rcases mem_setLastEnd _ _ _ hc with h | ⟨d, hd, h1, h2⟩
      · have hdur := allocGo_duration _ t s 0 c h hlt
        linarith
      · exact absurd h2 (ne_of_lt hlt)

/-- Witness for amended C4 at sentences `["a", "b"]`, duration 10. -/
theorem allocate_caption_contiguous_monotone_witness :
    (["a", "b"] : List String) ≠ [] ∧ (0:ℚ) < 10 ∧
      ((∀ c ∈ allocate_caption_timings ["a", "b"] 10, c.start ≤ c.stop) ∧
        (∀ c ∈ allocate_caption_timings ["a", "b"] 10, c.stop < 10 →
          c.start < c.stop) ∧
        List.Chain' (fun a b => b.start = a.stop)
          (allocate_caption_timings ["a", "b"] 10)) :=
  ⟨by simp, by norm_num,
    allocate_caption_contiguous_monotone ["a", "b"] 10 (by simp) (by norm_num)⟩

end Subtitles

namespace Subtitles

theorem pyRound_near (q : ℚ) (k : ℤ) :
    |(pyRound q : ℚ) - q| ≤ |(k : ℚ) - q| := by
  have hfl : ((⌊q⌋ : ℚ)) ≤ q := Int.floor_le q
  have hfu : q < (⌊q⌋ : ℚ) + 1 := Int.lt_floor_add_one q
  have hub1 : q - (k : ℚ) ≤ |(k : ℚ) - q| := by
    rw [abs_sub_comm]
    exact le_abs_self _
  have hub2 : (k : ℚ) - q ≤ |(k : ℚ) - q| := le_abs_self _
  have hk : (k : ℚ) ≤ (⌊q⌋ : ℚ) ∨ ((⌊q⌋ : ℚ) + 1) ≤ (k : ℚ) := by
    rcases le_or_lt k ⌊q⌋ with h | h
    · exact Or.inl (by exact_mod_cast h)
    · exact Or.inr (by exact_mod_cast h)
  unfold pyRound
  split_ifs with h1 h2 h3
  · rw [abs_of_nonpos (by linarith)]
    rcases hk with h | h <;> linarith
  · push_cast
    rw [abs_of_nonneg (by linarith)]
    rcases hk with h | h <;> linarith
  · rw [abs_of_nonpos (by linarith)]
    rcases hk with h | h <;> linarith
  · push_cast
    rw [abs_of_nonneg (by linarith)]
    rcases hk with h | h <;> linarith

theorem format_timestamp_millis (s : ℚ) :
    ((format_timestamp s).1 * 3600 + (format_timestamp s).2.1 * 60 +
      (format_timestamp s).2.2.1) * 1000 + (format_timestamp s).2.2.2 =
      pyRound (s * 1000) := by
  simp only [format_timestamp]
  generalize pyRound (s * 1000) = n
  have e1 : n.fmod 3600000 + 3600000 * n.fdiv 3600000 = n :=
    Int.fmod_add_fdiv n 3600000
  have e2 : (n.fmod 3600000).fmod 60000 +
      60000 * (n.fmod 3600000).fdiv 60000 = n.fmod 3600000 :=
    Int.fmod_add_fdiv (n.fmod 3600000) 60000
  have e3 : ((n.fmod 3600000).fmod 60000).fmod 1000 +
      1000 * ((n.fmod 3600000).fmod 60000).fdiv 1000 =
      (n.fmod 3600000).fmod 60000 :=
    Int.fmod_add_fdiv ((n.fmod 3600000).fmod 60000) 1000
  linarith [e1, e2, e3]

/-- C9: SRT timestamp round-trip: for every non-negative number of seconds
`s`, parsing the timestamp formatted by `format_timestamp` yields `s`
rounded to the nearest millisecond — a whole number `r` of milliseconds
(namely Python's `round(s * 1000)`) minimizing the distance to `s` among
all whole-millisecond values. -/
theorem timestamp_round_trip (s : ℚ) (hs : 0 ≤ s) :
    ∃ r : ℚ,
      parse_timestamp
          [(format_timestamp s).1, (format_timestamp s).2.1,
            (format_timestamp s).2.2.1]
          (some (format_timestamp s).2.2.2) = some r ∧
      r * 1000 = (pyRound (s * 1000) : ℚ) ∧
      ∀ k : ℤ, |r - s| ≤ |(k : ℚ) / 1000 - s| := by
  have hmil := format_timestamp_millis s
  refine ⟨(pyRound (s * 1000) : ℚ) / 1000, ?_, by field_simp, ?_⟩
  · have hq : ((format_timestamp s).1 : ℚ) * 3600 +
        ((format_timestamp s).2.1 : ℚ) * 60 +
        ((format_timestamp s).2.2.1 : ℚ) +
        ((format_timestamp s).2.2.2 : ℚ) / 1000 =
        (pyRound (s * 1000) : ℚ) / 1000 := by
      have hcast := congrArg (fun z : ℤ => (z : ℚ)) hmil
      push_cast at hcast
      linarith
    simp only [parse_timestamp, last3, List.reverse_cons, List.reverse_nil,
      List.nil_append, List.cons_append, Option.getD_some, Option.map_some]
    rw [Option.map]
    simp only [Option.map_some]
    exact congrArg some hq
  · intro k
    have hnear := pyRound_near (s * 1000) k
    have h1 : (pyRound (s * 1000) : ℚ) / 1000 - s =
        ((pyRound (s * 1000) : ℚ) - s * 1000) / 1000 := by ring
    have h2 : (k : ℚ) / 1000 - s = ((k : ℚ) - s * 1000) / 1000 := by ring
    rw [h1, h2, abs_div, abs_div]
    rw [show |(1000 : ℚ)| = 1000 by norm_num]
    exact (div_le_div_iff_of_pos_right (by norm_num)).mpr hnear

/-- Witness for C9 at `s = 1/2` second. -/
theorem timestamp_round_trip_witness :
    (0 : ℚ) ≤ 1/2 ∧
      ∃ r : ℚ,
        parse_timestamp
            [(format_timestamp (1/2)).1, (format_timestamp (1/2)).2.1,
              (format_timestamp (1/2)).2.2.1]
            (some (format_timestamp (1/2)).2.2.2) = some r ∧
        r * 1000 = (pyRound ((1/2 : ℚ) * 1000) : ℚ) ∧
        ∀ k : ℤ, |r - 1/2| ≤ |(k : ℚ) / 1000 - 1/2| :=
  ⟨by norm_num, timestamp_round_trip (1/2) (by norm_num)⟩

end Subtitles

namespace Services

theorem find?_eq_none_of_not_mem (captions : List SubtitleLine) (sid : String)
    (h : ∀ c ∈ captions, c.id ≠ sid) :
    captions.find? (fun sub => sub.id = sid) = none := by
  rw [List.find?_eq_none]
  intro c hc
  simpa using h c hc

/-- C10: subtitle edits are atomic with respect to persisted state: for
every existing project and every subtitle id not present in its captions,
`update_subtitle` and `delete_subtitle_line` raise `KeyError` and the
persisted metadata (captions, timeline, version, updated_at) is unchanged,
because `save_project` only runs after the lookup succeeds. -/
theorem subtitle_edit_error_atomic (m : ProjectMetadata) (sid : String)
    (p : SubtitleUpdate) (now : ℕ) (h : ∀ c ∈ m.captions, c.id ≠ sid) :
    update_subtitle (some m) sid p now =
      (.error (.keyError ("Subtitle " ++ sid ++ " not found")), some m) ∧
    delete_subtitle_line (some m) sid now =
      (.error (.keyError ("Subtitle " ++ sid ++ " not found")), some m) := by
  constructor
  · simp only [update_subtitle, find?_eq_none_of_not_mem m.captions sid h]
  · have hfilter : m.captions.filter (fun sub => sub.id ≠ sid) = m.captions :=
      List.filter_eq_self.mpr (fun c hc => by simpa using h c hc)
    simp only [delete_subtitle_line, hfilter, if_pos]

/-- Witness for C10: a project with one caption and a missing id. -/
theorem subtitle_edit_error_atomic_witness :
    (∀ c ∈ (ProjectMetadata.mk [⟨"a", 0, 1, "hi"⟩] [] 1 0).captions,
      c.id ≠ "b") ∧
    (update_subtitle (some (ProjectMetadata.mk [⟨"a", 0, 1, "hi"⟩] [] 1 0))
        "b" ⟨none, none, none⟩ 5 =
      (.error (.keyError ("Subtitle " ++ "b" ++ " not found")),
        some (ProjectMetadata.mk [⟨"a", 0, 1, "hi"⟩] [] 1 0)) ∧
      delete_subtitle_line
          (some (ProjectMetadata.mk [⟨"a", 0, 1, "hi"⟩] [] 1 0)) "b" 5 =
        (.error (.keyError ("Subtitle " ++ "b" ++ " not found")),
          some (ProjectMetadata.mk [⟨"a", 0, 1, "hi"⟩] [] 1 0))) :=
  ⟨by decide,
    subtitle_edit_error_atomic (ProjectMetadata.mk [⟨"a", 0, 1, "hi"⟩] [] 1 0)
      "b" ⟨none, none, none⟩ 5 (by decide)⟩

end Services

namespace Repository

/-- C6 (counterexample): the pre-save blob is not always preserved.  Start
from a metadata file whose blob carries version 3 while a backup
`_versions/v3.metadata.json` with different contents already exists (as
happens when two saves run without the version field on disk changing):
`save_project` skips the backup because the file exists, and the pre-save
blob (payload tag 7) is lost — the backups are unchanged and do not
contain it anywhere. -/
theorem save_project_backup_counterexample :
    (save_project 4 ⟨true, some 4, 9⟩
        ⟨some (some ⟨true, some 3, 7⟩), [(3, ⟨true, some 3, 5⟩)]⟩).backups =
      [(3, ⟨true, some 3, 5⟩)] ∧
    ((3 : ℤ), JsonBlob.mk true (some 3) 7) ∉
      (save_project 4 ⟨true, some 4, 9⟩
        ⟨some (some ⟨true, some 3, 7⟩), [(3, ⟨true, some 3, 5⟩)]⟩).backups ∧
    (save_project 4 ⟨true, some 4, 9⟩
        ⟨some (some ⟨true, some 3, 7⟩), [(3, ⟨true, some 3, 5⟩)]⟩).mainFile =
      some (some ⟨true, some 4, 9⟩) := by
  refine ⟨?_, ?_, ?_⟩ <;> decide

/-- C6 (amended): when the metadata file exists and parses to a truthy JSON
blob, and no backup file for the previous version number N (the old blob's
nonzero `version` entry) exists yet, `save_project` writes the previous
blob to `_versions/vN.metadata.json` before overwriting the metadata file,
so in that case the pre-save blob is preserved. -/
theorem save_project_backup_preserves_blob (fs : FsState) (old : JsonBlob)
    (metaVersion : ℤ) (newBlob : JsonBlob) (n : ℤ)
    (hmain : fs.mainFile = some (some old)) (htruthy : old.truthy = true)
    (hver : old.version = some n) (hn : n ≠ 0)
    (hfresh : fs.backups.lookup n = none) :
    (save_project metaVersion newBlob fs).backups.lookup n = some old ∧
    (save_project metaVersion newBlob fs).mainFile = some (some newBlob) := by
  have hprev : prevVersion old metaVersion = n := by
    simp [prevVersion, hver, hn]
  constructor
  · simp only [save_project, hmain, htruthy, if_pos, hprev, hfresh,
      Option.isNone_none, if_true]
    simp [List.lookup]
  · simp [save_project]

/-- Witness for amended C6: a truthy version-2 blob with no backups. -/
theorem save_project_backup_preserves_blob_witness :
    (FsState.mk (some (some ⟨true, some 2, 5⟩)) []).mainFile =
        some (some ⟨true, some 2, 5⟩) ∧
      (JsonBlob.mk true (some 2) 5).truthy = true ∧
      (JsonBlob.mk true (some 2) 5).version = some 2 ∧
      (2 : ℤ) ≠ 0 ∧
      (FsState.mk (some (some ⟨true, some 2, 5⟩)) []).backups.lookup 2 =
        none ∧
      ((save_project 3 ⟨true, some 3, 6⟩
          (FsState.mk (some (some ⟨true, some 2, 5⟩)) [])).backups.lookup 2 =
        some ⟨true, some 2, 5⟩ ∧
      (save_project 3 ⟨true, some 3, 6⟩
          (FsState.mk (some (some ⟨true, some 2, 5⟩)) [])).mainFile =
        some (some ⟨true, some 3, 6⟩)) :=
  ⟨rfl, rfl, rfl, by decide, rfl,
    save_project_backup_preserves_blob
      (FsState.mk (some (some ⟨true, some 2, 5⟩)) []) ⟨true, some 2, 5⟩
      3 ⟨true, some 3, 6⟩ 2 rfl rfl rfl (by decide) rfl⟩

end Repository

namespace WebApp

/-- C7 (counterexample): it is not the case that every exception becomes an
HTTP response with `detail = str(exc)` following the claimed table:
`api_render_project` does not catch `ValueError` at all (so it does not
answer 400 with the exception string there), and `api_update_subtitle`
does not catch `RuntimeError`; both propagate to the framework's generic
500 handler whose body is not the exception string. -/
theorem endpoint_exception_counterexample :
    api_render_project_exc .valueError = .propagated ∧
      api_render_project_exc .valueError ≠ .httpDetailStr 400 ∧
      api_update_subtitle_exc .runtimeError = .propagated ∧
      api_update_subtitle_exc .runtimeError ≠ .httpDetailStr 400 := by
  refine ⟨rfl, ?_, rfl, ?_⟩ <;> decide

/-- C7 (amended): `api_update_subtitle` maps `FileNotFoundError` and
`KeyError` to HTTP 404 and `ValueError` to HTTP 400, each with
`detail = str(exc)`; `api_render_project` maps `FileNotFoundError` to 404
and `RuntimeError` to 400, each with `detail = str(exc)`; every other
exception (including `ValueError` on the render endpoint and `RuntimeError`
or `KeyError` on the update endpoint) propagates uncaught, yielding the
framework's generic 500 whose detail is not the exception string. -/
theorem endpoint_exception_mapping :
    api_update_subtitle_exc .fileNotFound = .httpDetailStr 404 ∧
      api_update_subtitle_exc .keyError = .httpDetailStr 404 ∧
      api_update_subtitle_exc .valueError = .httpDetailStr 400 ∧
      api_update_subtitle_exc .runtimeError = .propagated ∧
      api_update_subtitle_exc .other = .propagated ∧
      api_render_project_exc .fileNotFound = .httpDetailStr 404 ∧
      api_render_project_exc .runtimeError = .httpDetailStr 400 ∧
      api_render_project_exc .keyError = .propagated ∧
      api_render_project_exc .valueError = .propagated ∧
      api_render_project_exc .other = .propagated := by
  refine ⟨rfl, rfl, rfl, rfl, rfl, rfl, rfl, rfl, rfl, rfl⟩

/-- C8 (counterexample): no boolean busy flag guards the render endpoint:
`api_render_project` admits a render request even while another render job
is in flight, instead of rejecting it. -/
theorem render_busy_flag_counterexample :
    api_render_project_admission true = .started ∧
      api_render_project_admission true ≠ .rejected := by
  exact ⟨rfl, by decide⟩

/-- C8 (amended): the shorts web backend's render endpoint
(`api_render_project` in `src/web_app/app.py`) has no busy flag: a render
request arriving while another render job is already running is admitted
rather than rejected.  Boolean busy-flag guards do exist on scraping
endpoints of other web backends — `is_scraping` on `api_search` in
`11.coupang_wing_web.py` and `search_active` on `start_search` in
`2_app_web_coupang_rank_chrome_secretmode_server3ok.py` — and those reject
a request that arrives while a job is running, without starting a second
job. -/
theorem busy_flag_guard_mapping :
    api_render_project_admission true = .started ∧
      api_render_project_admission false = .started ∧
      api_search true true = .rejected ∧
      api_search true false = .rejected ∧
      api_search false true = .started ∧
      (start_search true).1 = .rejected ∧
      (start_search true).2 = true ∧
      (start_search false).1 = .started ∧
      (start_search false).2 = true := by
  refine ⟨rfl, rfl, rfl, rfl, rfl, rfl, rfl, rfl, rfl⟩

end WebApp

namespace Render

theorem baseLoop_cons (seg : Seg) (rest : List Seg) (cursor : ℚ)
    (hpos : ¬ (seg.stop - seg.start ≤ 0)) :
    baseLoop (seg :: rest) cursor =
      ((if cursor + 1/1000 < seg.start then [seg.start - cursor] else []) ++
        segClipDuration seg ::
          (baseLoop rest
            (max (if cursor + 1/1000 < seg.start then seg.start else cursor)
              seg.stop)).1,
        (baseLoop rest
          (max (if cursor + 1/1000 < seg.start then seg.start else cursor)
            seg.stop)).2) := by
  simp only [baseLoop, if_neg hpos]

theorem baseLoop_spec :
    ∀ (segs : List Seg) (cursor : ℚ), GapOk cursor segs →
      (∀ s ∈ segs, 1/10 ≤ s.stop - s.start) →
      (baseLoop segs cursor).2 = lastStop cursor segs ∧
        (baseLoop segs cursor).1.sum = lastStop cursor segs - cursor
  | [], cursor, _, _ => by simp [baseLoop, lastStop]
  | seg :: rest, cursor, hgap, hlen => by
    obtain ⟨hg, hgrest⟩ := hgap
    have hl : 1/10 ≤ seg.stop - seg.start := hlen seg (List.mem_cons_self _ _)
    have hpos : ¬ (seg.stop - seg.start ≤ 0) := by linarith
    have hclip : segClipDuration seg = seg.stop - seg.start :=
      max_eq_left hl
    obtain ⟨ih1, ih2⟩ := baseLoop_spec rest seg.stop hgrest
      (fun s hs => hlen s (List.mem_cons_of_mem _ hs))
    have hlast : lastStop cursor (seg :: rest) = lastStop seg.stop rest := rfl
    rcases hg with heq | hlt
    · have hcond : ¬ (cursor + 1/1000 < seg.start) := by
        rw [heq]; linarith
      have hstop : max cursor seg.stop = seg.stop :=
        max_eq_right (by rw [← heq]; linarith)
      rw [baseLoop_cons seg rest cursor hpos]
      simp only [if_neg hcond, hstop, List.nil_append, List.sum_cons]
      refine ⟨by rw [ih1, hlast], ?_⟩
      rw [ih2, hclip, hlast, ← heq]
      ring
    · have hcond : cursor + 1/1000 < seg.start := hlt
      have hstop : max seg.start seg.stop = seg.stop :=
        max_eq_right (by linarith)
      rw [baseLoop_cons seg rest cursor hpos]
      simp only [if_pos hcond, hstop, List.cons_append, List.nil_append,
        List.sum_cons]
      refine ⟨by rw [ih1, hlast], ?_⟩
      rw [ih2, hclip, hlast]
      ring

/-- C5 (counterexample): the base-track clip list does not always cover
`[0, project_duration]` exactly, even for non-overlapping in-range
segments with positive length.  First input: one segment `[0, 1999/2000]`
with duration 1 leaves a trailing hole of `1/2000 <= 1e-3` that the loop
does not fill, so the clip durations sum to `1999/2000`, not 1.  Second
input: one segment `[0, 1/20]` is shorter than the 0.1-second minimum of
`_segment_to_clip`, so its clip is stretched to `1/10` and the durations
sum to `21/20`, overshooting the duration 1. -/
theorem render_base_cover_counterexample :
    (render_base_clips [⟨0, 1999/2000⟩] 1).sum = 1999/2000 ∧
      (1999/2000 : ℚ) ≠ 1 ∧
      (render_base_clips [⟨0, 1/20⟩] 1).sum = 21/20 ∧
      (21/20 : ℚ) ≠ 1 ∧
      (0 : ℚ) < 1999/2000 ∧ (1999/2000 : ℚ) ≤ 1 ∧
      (0 : ℚ) < 1/20 ∧ (1/20 : ℚ) ≤ 1 := by
  have hsort1 : List.insertionSort
      (fun a b : Seg => a.start ≤ b.start) [⟨0, 1999/2000⟩] =
      [⟨0, 1999/2000⟩] := rfl
  have hsort2 : List.insertionSort
      (fun a b : Seg => a.start ≤ b.start) [⟨0, 1/20⟩] = [⟨0, 1/20⟩] := rfl
  have hb1 : baseLoop [⟨0, 1999/2000⟩] 0 = ([1999/2000], 1999/2000) := by
    rw [baseLoop_cons _ _ _ (by norm_num)]
    norm_num [baseLoop, segClipDuration]
  have hb2 : baseLoop [⟨0, 1/20⟩] 0 = ([1/10], 1/20) := by
    rw [baseLoop_cons _ _ _ (by norm_num)]
    norm_num [baseLoop, segClipDuration]
  refine ⟨?_, by norm_num, ?_, by norm_num, by norm_num, by norm_num,
    by norm_num, by norm_num⟩
  · rw [show render_base_clips [⟨0, 1999/2000⟩] 1 =
        (if (baseLoop [⟨0, 1999/2000⟩] 0).2 < 1 - 1/1000 then
          (baseLoop [⟨0, 1999/2000⟩] 0).1 ++ [1 - (baseLoop [⟨0, 1999/2000⟩] 0).2]
        else (baseLoop [⟨0, 1999/2000⟩] 0).1) from by
      simp only [render_base_clips, hsort1]]
    rw [hb1]
    norm_num
  · rw [show render_base_clips [⟨0, 1/20⟩] 1 =
        (if (baseLoop [⟨0, 1/20⟩] 0).2 < 1 - 1/1000 then
          (baseLoop [⟨0, 1/20⟩] 0).1 ++ [1 - (baseLoop [⟨0, 1/20⟩] 0).2]
        else (baseLoop [⟨0, 1/20⟩] 0).1) from by
      simp only [render_base_clips, hsort2]]
    rw [hb2]
    norm_num

/-- C5 (amended): for a project whose base (non-overlay) timeline segments
are sorted, pairwise non-overlapping, contained in `[0, project_duration]`,
each at least 0.1 seconds long, and whose gaps (before the first segment,
between consecutive segments, and after the last) are each either zero or
strictly larger than the 1e-3 tolerance, the base-track clip list built by
`render_project` (segment clips plus background-color gap fillers) covers
`[0, project_duration]` contiguously: the clip durations sum to the
project duration.  Sub-tolerance holes are left unfilled and sub-0.1s
segments are stretched, so both extra hypotheses are necessary. -/
theorem render_base_clips_cover_duration (segs : List Seg) (d : ℚ)
    (hsorted : segs.Sorted (fun a b => a.start ≤ b.start))
    (hrange : ∀ s ∈ segs, 0 ≤ s.start ∧ s.stop ≤ d)
    (hlen : ∀ s ∈ segs, 1/10 ≤ s.stop - s.start)
    (hgap : GapOk 0 segs)
    (hlast : lastStop 0 segs = d ∨ lastStop 0 segs + 1/1000 < d) :
    (render_base_clips segs d).sum = d := by
  obtain ⟨h2, h1⟩ := baseLoop_spec segs 0 hgap hlen
  rw [show render_base_clips segs d =
      (if (baseLoop segs 0).2 < d - 1/1000 then
        (baseLoop segs 0).1 ++ [d - (baseLoop segs 0).2]
      else (baseLoop segs 0).1) from by
    simp only [render_base_clips, List.Sorted.insertionSort_eq hsorted]]
  rcases hlast with heq | hlt
  · rw [if_neg (by rw [h2, heq]; linarith), h1, heq]
    ring
  · rw [if_pos (by rw [h2]; linarith), List.sum_append, h1, h2]
    simp only [List.sum_cons, List.sum_nil]
    ring

/-- Witness for amended C5: one segment `[0, 1/2]` inside duration 1; the
loop emits the segment clip and a trailing half-second filler. -/
theorem render_base_clips_cover_duration_witness :
    ([⟨0, 1/2⟩] : List Seg).Sorted (fun a b => a.start ≤ b.start) ∧
      (∀ s ∈ ([⟨0, 1/2⟩] : List Seg), 0 ≤ s.start ∧ s.stop ≤ 1) ∧
      (∀ s ∈ ([⟨0, 1/2⟩] : List Seg), 1/10 ≤ s.stop - s.start) ∧
      GapOk 0 [⟨0, 1/2⟩] ∧
      (lastStop 0 [⟨0, 1/2⟩] = 1 ∨ lastStop 0 [⟨0, 1/2⟩] + 1/1000 < 1) ∧
      (render_base_clips [⟨0, 1/2⟩] 1).sum = 1 :=
  ⟨by simp, by norm_num, by norm_num, ⟨Or.inl rfl, trivial⟩,
    Or.inr (by norm_num [lastStop]),
    render_base_clips_cover_duration [⟨0, 1/2⟩] 1 (by simp) (by norm_num)
      (by norm_num) ⟨Or.inl rfl, trivial⟩ (Or.inr (by norm_num [lastStop]))⟩

end Render
